import Mathlib

/-
  Verification of the flyctl machine-scale / tigris-statics core.

  This file gives a shallow embedding, in Lean 4, of the code in
  `internal/command/deploy/machines_tigrisstatics.go` and of the scale
  coordinator `v2ScaleVM` (package scale), and proves or refutes the
  specification claims about them.

  Modelling conventions:
  - Go strings are Lean `String`s; byte-level operations (strings.HasPrefix,
    strings.HasSuffix, strings.Contains) are modelled on the character list
    `String.data`, which agrees with Go byte semantics on the ASCII data
    involved here.
  - Bucket contents are modelled as the finite set of object keys present.
  - External calls (S3, GraphQL, flaps) are modelled by passing their
    outcomes as explicit parameters, so each code path is a pure function
    of those outcomes.
  - Go `nil`-able results are `Option`, fallible calls are `Except`.
-/

namespace Flyctl

/-! ## Go string primitives -/

/-- Models Go `strings.HasPrefix(s, pre)`. -/
def strStarts (s pre : String) : Bool := pre.data.isPrefixOf s.data

/-- Models Go `strings.HasSuffix(s, suf)`. -/
def strEnds (s suf : String) : Bool := suf.data.isSuffixOf s.data

/-- Models Go `strings.Contains(s, sub)`. -/
def strHasSub (s sub : String) : Bool := decide (sub.data <:+: s.data)

/-- Accumulates a decimal number from a list of characters; any non-digit
character is an error. -/
def digitsToNatAux (acc : Nat) : List Char → Option Nat
  | [] => some acc
  | c :: rest =>
    if c.isDigit then digitsToNatAux (acc * 10 + (c.toNat - '0'.toNat)) rest
    else none

/-- Models Go `strconv.Atoi`: an optional sign followed by one or more
decimal digits; anything else is an error. (Machine-int overflow is not
modelled; the version numbers involved are small.) -/
def goAtoi (s : String) : Option Int :=
  match s.data with
  | [] => none
  | '+' :: rest =>
    if rest = [] then none else (digitsToNatAux 0 rest).map (fun n => (n : Int))
  | '-' :: rest =>
    if rest = [] then none else (digitsToNatAux 0 rest).map (fun n => -(n : Int))
  | l => (digitsToNatAux 0 l).map (fun n => (n : Int))

/-- Splits a character list at every `'/'`, keeping empty segments, like Go
`strings.Split(s, "/")` does. -/
def splitSlashChars : List Char → List (List Char)
  | [] => [[]]
  | c :: rest =>
    match splitSlashChars rest with
    | [] => [[]]
    | h :: t => if c = '/' then [] :: h :: t else (c :: h) :: t

/-- Models Go `strings.Split(s, "/")`. -/
def goSplitSlash (s : String) : List String :=
  (splitSlashChars s.data).map String.mk

/-! ## Static asset specs (`appconfig.Static`) and candidate selection -/

/-- The fields of `appconfig.Static` used by the statics-push code. -/
structure Static where
  guestPath : String
  urlPrefix : String
  tigrisBucket : String
  indexDocument : String
deriving DecidableEq

/-- Embeds `staticIsCandidateForTigrisPush` (machines_tigrisstatics.go:267).
The source checks, in order: a non-empty `TigrisBucket` excludes the spec;
an empty `GuestPath` excludes it; a `GuestPath` whose first byte is `'/'`
(an absolute path) excludes it; otherwise it is selected. The first byte of
a UTF-8 string is `'/'` exactly when its first character is. -/
def staticIsCandidateForTigrisPush (static : Static) : Bool :=
  if static.tigrisBucket ≠ "" then false
  else if static.guestPath.data = [] then false
  else if static.guestPath.data.head? = some '/' then false
  else true

/-- A relative guest path, in the sense of the specification: a non-empty
path that does not begin with the separator `'/'`. (Spec-side definition,
used to state the candidate-selection claim.) -/
def isRelativeGuestPath (p : String) : Prop :=
  p ≠ "" ∧ p.data.head? ≠ some '/'

/-- Claim C8: a static spec is selected for the tigris push if and only if
its bound bucket is empty and its guest path is relative; in particular a
spec with relative guest path "assets" and no bound bucket is selected, one
with absolute guest path "/assets" is not, and one with a non-empty bound
bucket is not, even though its guest path is relative. -/
theorem staticIsCandidateForTigrisPush_iff :
    (∀ s : Static, staticIsCandidateForTigrisPush s = true ↔
       (s.tigrisBucket = "" ∧ isRelativeGuestPath s.guestPath)) ∧
    staticIsCandidateForTigrisPush ⟨"assets", "/statics", "", ""⟩ = true ∧
    staticIsCandidateForTigrisPush ⟨"/assets", "/statics", "", ""⟩ = false ∧
    staticIsCandidateForTigrisPush ⟨"assets", "/statics", "user-bucket", ""⟩ = false := by
  refine ⟨fun s => ?_, by decide, by decide, by decide⟩
  have hempty : (s.guestPath = "") ↔ s.guestPath.data = [] := by
    rw [String.ext_iff]
  simp only [staticIsCandidateForTigrisPush, isRelativeGuestPath]
  constructor
  · intro h
    split at h
    · simp at h
    · rename_i htb
      split at h
      · simp at h
      · rename_i hdat
        split at h
        · simp at h
        · rename_i hhead
          exact ⟨not_not.mp htb, fun hc => hdat (hempty.mp hc), hhead⟩
  · rintro ⟨htb, hne, hhead⟩
    rw [if_neg (by simp [htb]), if_neg (fun hc => hne (hempty.mpr hc)), if_neg hhead]

/-- Claim C10: a static spec with an empty guest path is never selected for
synchronization, whatever its other fields are. -/
theorem staticIsCandidate_empty_guestPath (s : Static) (h : s.guestPath = "") :
    staticIsCandidateForTigrisPush s = false := by
  unfold staticIsCandidateForTigrisPush
  rw [h]
  by_cases htb : s.tigrisBucket = "" <;>
    simp [htb, show ("" : String).data = [] from rfl]

/-- Witness for claim C10, at a concrete spec with an empty guest path. -/
theorem staticIsCandidate_empty_guestPath_witness :
    staticIsCandidateForTigrisPush ⟨"", "/statics", "", ""⟩ = false :=
  staticIsCandidate_empty_guestPath ⟨"", "/statics", "", ""⟩ rfl

/-! ## Bucket contents, `deleteDirectory` and `uploadDirectory` -/

/-- The prefix normalization at the top of `deleteDirectory`
(machines_tigrisstatics.go:406): append a `"/"` unless the prefix already
ends with one. (The windows-only backslash replacement is omitted: the
model uses forward-slash paths throughout, as on non-windows hosts.) -/
def ensureSlash (dir : String) : String :=
  if strEnds dir "/" then dir else dir ++ "/"

/-- Embeds `deleteDirectory` (machines_tigrisstatics.go:400): list every
object whose key starts with the normalized prefix and delete all of them
(the batching in groups of 1000 only splits the same deletions into several
calls). The bucket is modelled as the finite set of keys present, and the
result is the bucket state after the call. -/
def deleteDirectory (bucket : Finset String) (dir : String) : Finset String :=
  bucket.filter (fun k => ¬ strStarts k (ensureSlash dir) = true)

/-- Models Go `path.Join(dest, file)` on the inputs produced by
`uploadDirectory`: a non-empty destination with at most one trailing slash
and a cleaned relative file path from `fs.WalkDir`, joined with exactly one
`'/'` between them. -/
def pathJoin2 (dest file : String) : String := ensureSlash dest ++ file

/-- Embeds `uploadDirectory` (machines_tigrisstatics.go:288) at the level
of resulting bucket contents, assuming every network call succeeds: first
`deleteDirectory dest` clears the destination, then one object is put per
regular file under the local root, with key `path.Join(dest, file)`.
`files` is the set of relative file paths enumerated by `fs.WalkDir`. -/
def uploadDirectory (bucket : Finset String) (dest : String) (files : Finset String) :
    Finset String :=
  deleteDirectory bucket dest ∪ files.image (pathJoin2 dest)

/-- An uploaded key extends the normalized destination. -/
theorem strStarts_pathJoin2 (dest f : String) :
    strStarts (pathJoin2 dest f) (ensureSlash dest) = true := by
  unfold pathJoin2 strStarts
  rw [List.isPrefixOf_iff_prefix]
  exact List.prefix_append (ensureSlash dest).data f.data

/-- Claim C7: `uploadDirectory` clears the destination before uploading, so
a push is a directory replace: for any prior bucket state, uploading `D` to
`dest` and then `D2` to the same `dest` leaves, under the destination,
exactly the object set derived from `D2` — no leftover keys from `D`. -/
theorem uploadDirectory_directory_replace
    (s : Finset String) (dest : String) (D D2 : Finset String) :
    Finset.filter (fun k => strStarts k (ensureSlash dest) = true)
        (uploadDirectory (uploadDirectory s dest D) dest D2) =
      Finset.image (pathJoin2 dest) D2 := by
  unfold uploadDirectory
  rw [Finset.filter_union]
  have h1 : Finset.filter (fun k => strStarts k (ensureSlash dest) = true)
      (deleteDirectory (deleteDirectory s dest ∪ D.image (pathJoin2 dest)) dest) = ∅ := by
    unfold deleteDirectory
    rw [Finset.filter_filter, Finset.filter_eq_empty_iff]
    intro x _ hx
    exact hx.1 hx.2
  rw [h1, Finset.empty_union]
  apply Finset.filter_true_of_mem
  intro k hk
  rcases Finset.mem_image.mp hk with ⟨f, _, rfl⟩
  exact strStarts_pathJoin2 dest f

/-- The version directory name `fmt.Sprintf("fly-statics/%s/%d/", app, n)`
used by `deleteOldStatics`, with `v` standing for the decimal rendering of
the version number `n`. -/
def verDir (app v : String) : String :=
  "fly-statics/" ++ app ++ "/" ++ v ++ "/"

/-- If two slash-free words are each followed by a slash inside otherwise
equal lists, the words are equal. -/
theorem slashfree_append_inj (v w t u : List Char)
    (hv : ('/' : Char) ∉ v) (hw : ('/' : Char) ∉ w)
    (h : v ++ '/' :: t = w ++ '/' :: u) : v = w := by
  induction v generalizing w with
  | nil =>
    cases w with
    | nil => rfl
    | cons b ws =>
      injection h with h1 _
      exact absurd (h1 ▸ List.mem_cons_self b ws) hw
  | cons a vs ih =>
    cases w with
    | nil =>
      injection h with h1 _
      exact absurd (h1 ▸ List.mem_cons_self a vs) hv
    | cons b ws =>
      injection h with h1 h2
      have := ih ws (fun hm => hv (List.mem_cons_of_mem a hm))
        (fun hm => hw (List.mem_cons_of_mem b hm)) h2
      rw [h1, this]

/-- Claim C9: `deleteDirectory` appends a trailing slash to a prefix that
lacks one and deletes exactly the keys extending that slashed prefix;
consequently deleting one version directory never touches a different
version whose decimal rendering merely starts with the deleted one
(concretely, deleting version 1 leaves version 10 intact). -/
theorem deleteDirectory_exact_and_version_isolated :
    (∀ (bucket : Finset String) (dir k : String), strEnds dir "/" = false →
       (k ∈ deleteDirectory bucket dir ↔
         k ∈ bucket ∧ ¬ (dir ++ "/").data.isPrefixOf k.data = true)) ∧
    (∀ (bucket : Finset String) (app v w f : String),
       ('/' : Char) ∉ v.data → ('/' : Char) ∉ w.data → v ≠ w →
       verDir app w ++ f ∈ bucket →
       verDir app w ++ f ∈ deleteDirectory bucket (verDir app v)) ∧
    deleteDirectory {"fly-statics/app/1/a.txt", "fly-statics/app/10/a.txt"}
        "fly-statics/app/1/" = {"fly-statics/app/10/a.txt"} := by
  refine ⟨?_, ?_, by decide⟩
  · intro bucket dir k hnos
    unfold deleteDirectory
    have hslash : ensureSlash dir = dir ++ "/" := by
      unfold ensureSlash
      rw [if_neg (by simp [hnos])]
    rw [hslash, Finset.mem_filter]
    exact Iff.rfl
  · intro bucket app v w f hv hw hvw hmem
    unfold deleteDirectory
    rw [Finset.mem_filter]
    refine ⟨hmem, ?_⟩
    intro hpre
    have hs : ensureSlash (verDir app v) = verDir app v := by
      unfold ensureSlash
      rw [if_pos]
      unfold strEnds verDir
      rw [List.isSuffixOf_iff_suffix]
      exact List.suffix_append _ _
    unfold strStarts at hpre
    rw [hs, List.isPrefixOf_iff_prefix] at hpre
    rcases hpre with ⟨t, ht⟩
    have hd : ∀ x : String, (verDir app x).data =
        ("fly-statics/" ++ app ++ "/").data ++ (x.data ++ '/' :: []) := by
      intro x
      show (("fly-statics/" ++ app ++ "/" ++ x ++ "/")).data = _
      change (("fly-statics/" ++ app ++ "/").data ++ x.data) ++ "/".data = _
      rw [List.append_assoc]
    have ht2 : ("fly-statics/" ++ app ++ "/").data ++ ((v.data ++ '/' :: []) ++ t) =
        ("fly-statics/" ++ app ++ "/").data ++ (w.data ++ '/' :: f.data) := by
      have hkey : (verDir app w ++ f).data = (verDir app w).data ++ f.data := rfl
      rw [hkey, hd w, List.append_assoc] at ht
      rw [← List.append_assoc, ← hd v, ht]
      simp [List.append_assoc]
    have ht3 := List.append_cancel_left ht2
    rw [List.append_assoc] at ht3
    exact hvw (String.ext (slashfree_append_inj v.data w.data _ _ hv hw (by
      simpa using ht3)))

/-- Witness for claim C9: the exact-deletion part at a prefix without a
trailing slash, and version isolation at the decimal renderings "1" and
"10" of versions 1 and 10. -/
theorem deleteDirectory_exact_and_version_isolated_witness :
    ("fly-statics/app/10/a.txt" ∈
        deleteDirectory {"fly-statics/app/1/a.txt", "fly-statics/app/10/a.txt"}
          "fly-statics/app/1" ↔
      ("fly-statics/app/10/a.txt" ∈
          ({"fly-statics/app/1/a.txt", "fly-statics/app/10/a.txt"} : Finset String) ∧
        ¬ ("fly-statics/app/1" ++ "/").data.isPrefixOf "fly-statics/app/10/a.txt".data
            = true)) ∧
    verDir "app" "10" ++ "a.txt" ∈
      deleteDirectory {verDir "app" "1" ++ "a.txt", verDir "app" "10" ++ "a.txt"}
        (verDir "app" "1") :=
  ⟨deleteDirectory_exact_and_version_isolated.1
      {"fly-statics/app/1/a.txt", "fly-statics/app/10/a.txt"}
      "fly-statics/app/1" "fly-statics/app/10/a.txt" (by decide),
    deleteDirectory_exact_and_version_isolated.2.1
      {verDir "app" "1" ++ "a.txt", verDir "app" "10" ++ "a.txt"}
      "app" "1" "10" "a.txt" (by decide) (by decide) (by decide) (by decide)⟩

/-! ## Retention: `deleteOldStatics` -/

/-- The retained-count constant `staticsKeepVersions`
(machines_tigrisstatics.go:56). -/
def staticsKeepVersions : Nat := 3

/-- Embeds the version extraction of `deleteOldStatics`
(machines_tigrisstatics.go:463): for each listed common prefix, split on
`"/"`; prefixes with fewer than 3 parts, or whose third part is not a
number, are skipped; otherwise the parsed number is kept. -/
def parseVersions (commonPrefixes : List String) : List Int :=
  commonPrefixes.filterMap (fun p =>
    let parts := goSplitSlash p
    if parts.length < 3 then none
    else goAtoi (parts.getD 2 ""))

/-- Embeds the first loop of `deleteOldStatics`
(machines_tigrisstatics.go:477): walk the version list in order and append
every version strictly greater than `currentVer` to `ignore`, deleting its
directory as it is appended. The returned list is both `ignore` and the
list of too-new version directories deleted, in deletion order. -/
def collectIgnored (currentVer : Int) : List Int → List Int
  | [] => []
  | v :: rest =>
    if currentVer < v then v :: collectIgnored currentVer rest
    else collectIgnored currentVer rest

/-- Embeds `lo.Uniq` with an explicit seen list: keep the first occurrence
of each element, preserving order. -/
def loUniqAux (seen : List Int) : List Int → List Int
  | [] => []
  | v :: rest =>
    if v ∈ seen then loUniqAux seen rest else v :: loUniqAux (v :: seen) rest

/-- Embeds `lo.Uniq`. -/
def loUniq (l : List Int) : List Int := loUniqAux [] l

/-- The observable deletions of one `deleteOldStatics` call: the too-new
version directories deleted by the first loop, and the old version
directories deleted by the retention step. -/
structure DeleteOldTrace where
  highDeleted : List Int
  oldDeleted : List Int
deriving DecidableEq

/-- Embeds `deleteOldStatics` (machines_tigrisstatics.go:443), assuming the
list and delete calls succeed: parse the versions from the listed common
prefixes; delete everything above `currentVer` (collecting it in `ignore`);
keep the versions not contained in `ignore`; sort ascending
(`slices.Sort`; on integers any sort produces this list); de-duplicate
(`lo.Uniq`); if more than `staticsKeepVersions` remain, delete the prefix
of the list that exceeds the threshold. -/
def deleteOldStatics (commonPrefixes : List String) (currentVer : Int) : DeleteOldTrace :=
  let versions := parseVersions commonPrefixes
  let ignore := collectIgnored currentVer versions
  let versions2 := versions.filter (fun v => !(List.elem v ignore))
  let sorted := List.insertionSort (fun a b => a ≤ b) versions2
  let uniqVersions := loUniq sorted
  let oldDeleted :=
    if staticsKeepVersions < uniqVersions.length then
      uniqVersions.take (uniqVersions.length - staticsKeepVersions)
    else []
  ⟨ignore, oldDeleted⟩

/-- The valid versions (those not above `currentVer`), sorted ascending and
de-duplicated: the list the retention step works on. -/
def sortedValidVersions (commonPrefixes : List String) (currentVer : Int) : List Int :=
  loUniq (List.insertionSort (fun a b => a ≤ b)
    ((parseVersions commonPrefixes).filter (fun v => decide (v ≤ currentVer))))

/-- The version directories still present after `deleteOldStatics`: every
listed version that was deleted neither as too-new nor as too-old. -/
def survivorSet (commonPrefixes : List String) (currentVer : Int) : Finset Int :=
  (parseVersions commonPrefixes).toFinset \
    ((deleteOldStatics commonPrefixes currentVer).highDeleted.toFinset ∪
     (deleteOldStatics commonPrefixes currentVer).oldDeleted.toFinset)

theorem mem_collectIgnored (cur v : Int) (l : List Int) :
    v ∈ collectIgnored cur l ↔ v ∈ l ∧ cur < v := by
  induction l with
  | nil => simp [collectIgnored]
  | cons a rest ih =>
    by_cases h : cur < a
    · simp only [collectIgnored, if_pos h, List.mem_cons, ih]
      constructor
      · rintro (rfl | ⟨hm, hv⟩)
        exacts [⟨Or.inl rfl, h⟩, ⟨Or.inr hm, hv⟩]
      · rintro ⟨rfl | hm, hv⟩
        exacts [Or.inl rfl, Or.inr ⟨hm, hv⟩]
    · simp only [collectIgnored, if_neg h, ih, List.mem_cons]
      constructor
      · rintro ⟨hm, hv⟩
        exact ⟨Or.inr hm, hv⟩
      · rintro ⟨rfl | hm, hv⟩
        exacts [absurd hv h, ⟨hm, hv⟩]

theorem filter_not_ignored (cur : Int) (l : List Int) :
    l.filter (fun v => !(List.elem v (collectIgnored cur l))) =
      l.filter (fun v => decide (v ≤ cur)) := by
  apply List.filter_congr
  intro a ha
  by_cases h : a ≤ cur
  · simp [List.elem_iff, mem_collectIgnored, h, not_lt.mpr h]
  · simp [List.elem_iff, mem_collectIgnored, ha, h, not_le.mp h]

theorem loUniqAux_sublist (seen l : List Int) : (loUniqAux seen l).Sublist l := by
  induction l generalizing seen with
  | nil => simp [loUniqAux]
  | cons a rest ih =>
    unfold loUniqAux
    by_cases h : a ∈ seen
    · rw [if_pos h]
      exact (ih seen).cons a
    · rw [if_neg h]
      exact (ih (a :: seen)).cons₂ a

theorem mem_loUniqAux (a : Int) (seen l : List Int) :
    a ∈ loUniqAux seen l ↔ a ∈ l ∧ a ∉ seen := by
  induction l generalizing seen with
  | nil => simp [loUniqAux]
  | cons b rest ih =>
    unfold loUniqAux
    by_cases h : b ∈ seen
    · rw [if_pos h, ih]
      constructor
      · rintro ⟨hm, hs⟩
        exact ⟨List.mem_cons_of_mem b hm, hs⟩
      · rintro ⟨hm, hs⟩
        rcases List.mem_cons.mp hm with rfl | hm2
        · exact absurd h hs
        · exact ⟨hm2, hs⟩
    · rw [if_neg h, List.mem_cons, ih]
      constructor
      · rintro (rfl | ⟨hm, hs⟩)
        · exact ⟨List.mem_cons_self a rest, h⟩
        · exact ⟨List.mem_cons_of_mem b hm,
            fun hc => hs (List.mem_cons_of_mem b hc)⟩
      · rintro ⟨hm, hs⟩
        by_cases hab : a = b
        · exact Or.inl hab
        · rcases List.mem_cons.mp hm with rfl | hm2
          · exact absurd rfl hab
          · exact Or.inr ⟨hm2, fun hc => (List.mem_cons.mp hc).elim hab hs⟩

theorem nodup_loUniqAux (seen l : List Int) : (loUniqAux seen l).Nodup := by
  induction l generalizing seen with
  | nil => simp [loUniqAux]
  | cons b rest ih =>
    unfold loUniqAux
    by_cases h : b ∈ seen
    · rw [if_pos h]
      exact ih seen
    · rw [if_neg h]
      refine List.nodup_cons.mpr ⟨?_, ih (b :: seen)⟩
      intro hc
      exact ((mem_loUniqAux b (b :: seen) rest).mp hc).2 (List.mem_cons_self b seen)

theorem sortedValidVersions_sorted (ps : List String) (cur : Int) :
    List.Sorted (fun a b : Int => a ≤ b) (sortedValidVersions ps cur) := by
  unfold sortedValidVersions loUniq
  exact (List.sorted_insertionSort _ _).sublist (loUniqAux_sublist _ _)

theorem sortedValidVersions_nodup (ps : List String) (cur : Int) :
    (sortedValidVersions ps cur).Nodup :=
  nodup_loUniqAux _ _

theorem mem_sortedValidVersions (ps : List String) (cur v : Int) :
    v ∈ sortedValidVersions ps cur ↔ v ∈ parseVersions ps ∧ v ≤ cur := by
  unfold sortedValidVersions loUniq
  rw [mem_loUniqAux]
  rw [(List.perm_insertionSort (fun a b : Int => a ≤ b) _).mem_iff]
  simp [List.mem_filter]

theorem deleteOldStatics_highDeleted (ps : List String) (cur : Int) :
    (deleteOldStatics ps cur).highDeleted = collectIgnored cur (parseVersions ps) := rfl

theorem deleteOldStatics_oldDeleted (ps : List String) (cur : Int) :
    (deleteOldStatics ps cur).oldDeleted =
      if staticsKeepVersions < (sortedValidVersions ps cur).length then
        (sortedValidVersions ps cur).take
          ((sortedValidVersions ps cur).length - staticsKeepVersions)
      else [] := by
  unfold deleteOldStatics sortedValidVersions
  dsimp only
  rw [filter_not_ignored]

theorem mem_drop_iff_of_nodup (su : List Int) (m : Nat) (hnd : su.Nodup) (x : Int) :
    x ∈ su.drop m ↔ x ∈ su ∧ x ∉ su.take m := by
  have happ : su.take m ++ su.drop m = su := List.take_append_drop m su
  have hnd2 : (su.take m ++ su.drop m).Nodup := by
    rw [happ]
    exact hnd
  have hdisj := (List.nodup_append.mp hnd2).2.2
  constructor
  · intro hd
    refine ⟨?_, fun ht => hdisj ht hd⟩
    rw [← happ]
    exact List.mem_append.mpr (Or.inr hd)
  · rintro ⟨hm, hnt⟩
    rw [← happ] at hm
    rcases List.mem_append.mp hm with h | h
    · exact absurd h hnt
    · exact h

theorem take_lt_drop_of_sorted (su : List Int) (m : Nat)
    (hs : List.Sorted (fun a b : Int => a ≤ b) su) (hnd : su.Nodup)
    (d : Int) (hd : d ∈ su.take m) (s' : Int) (hs' : s' ∈ su.drop m) : d < s' := by
  have hlt : List.Sorted (fun a b : Int => a < b) su := hs.lt_of_le hnd
  have happ : su.take m ++ su.drop m = su := List.take_append_drop m su
  have hpw : List.Pairwise (fun a b : Int => a < b) (su.take m ++ su.drop m) := by
    rw [happ]
    exact hlt
  exact (List.pairwise_append.mp hpw).2.2 d hd s' hs'

theorem survivorSet_eq_drop (ps : List String) (cur : Int)
    (hlen : staticsKeepVersions < (sortedValidVersions ps cur).length) :
    survivorSet ps cur =
      ((sortedValidVersions ps cur).drop
        ((sortedValidVersions ps cur).length - staticsKeepVersions)).toFinset := by
  have hold : (deleteOldStatics ps cur).oldDeleted =
      (sortedValidVersions ps cur).take
        ((sortedValidVersions ps cur).length - staticsKeepVersions) := by
    rw [deleteOldStatics_oldDeleted, if_pos hlen]
  ext x
  simp only [survivorSet, Finset.mem_sdiff, Finset.mem_union, List.mem_toFinset,
    deleteOldStatics_highDeleted, hold, mem_collectIgnored,
    mem_drop_iff_of_nodup _ _ (sortedValidVersions_nodup ps cur),
    mem_sortedValidVersions]
  constructor
  · rintro ⟨hp, hno⟩
    push_neg at hno
    exact ⟨⟨hp, hno.1 hp⟩, hno.2⟩
  · rintro ⟨⟨hp, hle⟩, hnt⟩
    refine ⟨hp, ?_⟩
    rintro (⟨_, hlt⟩ | ht)
    · exact absurd hle (not_le.mpr hlt)
    · exact hnt ht

theorem survivorSet_card_eq (ps : List String) (cur : Int)
    (hlen : staticsKeepVersions < (sortedValidVersions ps cur).length) :
    (survivorSet ps cur).card = staticsKeepVersions := by
  rw [survivorSet_eq_drop ps cur hlen,
    List.toFinset_card_of_nodup
      ((List.drop_sublist _ _).nodup (sortedValidVersions_nodup ps cur)),
    List.length_drop]
  omega

/-- The seven-version example from the spec: versions 1..7 present. -/
def demoPrefixes17 : List String :=
  ["fly-statics/app/1/", "fly-statics/app/2/", "fly-statics/app/3/",
   "fly-statics/app/4/", "fly-statics/app/5/", "fly-statics/app/6/",
   "fly-statics/app/7/"]

/-- The future-version example from the spec: versions 1, 2 and 10. -/
def demoPrefixes3 : List String :=
  ["fly-statics/app/1/", "fly-statics/app/2/", "fly-statics/app/10/"]

/-- Claim C4: after removing versions above `currentVersion`,
`deleteOldStatics` works on the remaining versions sorted ascending and
de-duplicated; when more than 3 remain it deletes exactly the oldest excess
ones, the survivors are exactly the 3 most recent valid versions (each
deleted version is older than each survivor), and for versions 1..7 with
`currentVersion = 7` the surviving set is exactly 5, 6, 7. -/
theorem deleteOldStatics_retention_exact :
    (∀ (ps : List String) (cur : Int),
       staticsKeepVersions < (sortedValidVersions ps cur).length →
       (deleteOldStatics ps cur).oldDeleted =
           (sortedValidVersions ps cur).take
             ((sortedValidVersions ps cur).length - staticsKeepVersions) ∧
       survivorSet ps cur =
           ((sortedValidVersions ps cur).drop
             ((sortedValidVersions ps cur).length - staticsKeepVersions)).toFinset ∧
       (survivorSet ps cur).card = staticsKeepVersions ∧
       (∀ d ∈ (deleteOldStatics ps cur).oldDeleted,
          ∀ s' ∈ survivorSet ps cur, d < s')) ∧
    survivorSet demoPrefixes17 7 = {5, 6, 7} := by
  refine ⟨fun ps cur hlen => ?_, by decide⟩
  have hold : (deleteOldStatics ps cur).oldDeleted =
      (sortedValidVersions ps cur).take
        ((sortedValidVersions ps cur).length - staticsKeepVersions) := by
    rw [deleteOldStatics_oldDeleted, if_pos hlen]
  refine ⟨hold, survivorSet_eq_drop ps cur hlen, survivorSet_card_eq ps cur hlen, ?_⟩
  intro d hd s' hs'
  rw [hold] at hd
  rw [survivorSet_eq_drop ps cur hlen, List.mem_toFinset] at hs'
  exact take_lt_drop_of_sorted _ _ (sortedValidVersions_sorted ps cur)
    (sortedValidVersions_nodup ps cur) d hd s' hs'

/-- Witness for claim C4, at the spec's seven-version example. -/
theorem deleteOldStatics_retention_exact_witness :
    survivorSet demoPrefixes17 7 =
      ((sortedValidVersions demoPrefixes17 7).drop
        ((sortedValidVersions demoPrefixes17 7).length - staticsKeepVersions)).toFinset :=
  (deleteOldStatics_retention_exact.1 demoPrefixes17 7 (by decide)).2.1

/-- Claim C5: every listed version strictly greater than `currentVersion`
is deleted by the first loop of `deleteOldStatics`, independently of the
retained-count calculation, and is excluded from the list considered for
retention; concretely, for versions 1, 2, 10 with `currentVersion = 3`,
version 10 is deleted and the survivors are 1 and 2. -/
theorem deleteOldStatics_future_versions_deleted :
    (∀ (ps : List String) (cur v : Int), v ∈ parseVersions ps → cur < v →
       v ∈ (deleteOldStatics ps cur).highDeleted ∧
       v ∉ sortedValidVersions ps cur ∧
       v ∉ (deleteOldStatics ps cur).oldDeleted) ∧
    ((deleteOldStatics demoPrefixes3 3).highDeleted = [10] ∧
     survivorSet demoPrefixes3 3 = {1, 2}) := by
  refine ⟨fun ps cur v hv hgt => ?_, by decide, by decide⟩
  have h2 : v ∉ sortedValidVersions ps cur := by
    rw [mem_sortedValidVersions]
    rintro ⟨_, hle⟩
    exact absurd hgt (not_lt.mpr hle)
  refine ⟨?_, h2, ?_⟩
  · rw [deleteOldStatics_highDeleted, mem_collectIgnored]
    exact ⟨hv, hgt⟩
  · rw [deleteOldStatics_oldDeleted]
    split
    · intro hc
      exact h2 (List.take_subset _ _ hc)
    · simp

/-- Witness for claim C5: version 10 with `currentVersion = 3`. -/
theorem deleteOldStatics_future_versions_deleted_witness :
    10 ∈ (deleteOldStatics demoPrefixes3 3).highDeleted ∧
    10 ∉ sortedValidVersions demoPrefixes3 3 ∧
    10 ∉ (deleteOldStatics demoPrefixes3 3).oldDeleted :=
  deleteOldStatics_future_versions_deleted.1 demoPrefixes3 3 10 (by decide) (by decide)

/-! ## Bucket provisioning: the collision retry in `staticsEnsureBucketCreated` -/

/-- The error test guarding the retry in `staticsEnsureBucketCreated`
(machines_tigrisstatics.go:123): the creation error message contains
"already exists for app" or "unavailable for creation". -/
def isCollisionErr (e : String) : Bool :=
  strHasSub e "already exists for app" || strHasSub e "unavailable for creation"

/-- The outcome of the creation step: the final bucket name or the error
returned, together with the number of `ProvisionExtension` calls made. -/
structure ProvisionOutcome where
  result : Except String String
  attempts : Nat

/-- Embeds the creation step of `staticsEnsureBucketCreated`
(machines_tigrisstatics.go:119-136): call `ProvisionExtension` with the
preferred name; on an error recognized as a name collision, retry exactly
once with the haikunator suffix appended to the preferred name; if the
retry succeeds, continue with the suffixed name; if it fails too, the
original error is returned; any other creation error is returned without a
retry. `try1` and `try2` are the outcomes the external service would give
the two possible calls. -/
def provisionBucketWithRetry (preferredName : String) (try1 : Except String Unit)
    (haiku : String) (try2 : Except String Unit) : ProvisionOutcome :=
  match try1 with
  | .ok _ => ⟨.ok preferredName, 1⟩
  | .error e =>
    if isCollisionErr e then
      match try2 with
      | .ok _ => ⟨.ok (preferredName ++ "-" ++ haiku), 2⟩
      | .error _ => ⟨.error e, 2⟩
    else ⟨.error e, 1⟩

/-- Claim C6: on a name-collision creation error exactly one retry runs,
with a randomized suffix appended to the preferred name; a successful retry
succeeds with the suffixed name; a failed retry returns the original
(first) error; a non-collision error propagates without a retry; and no
path makes more than two creation calls. -/
theorem provisionBucket_collision_retry :
    (∀ (pref haiku e : String), isCollisionErr e = true →
       provisionBucketWithRetry pref (.error e) haiku (.ok ()) =
         ⟨.ok (pref ++ "-" ++ haiku), 2⟩) ∧
    (∀ (pref haiku e e2 : String), isCollisionErr e = true →
       provisionBucketWithRetry pref (.error e) haiku (.error e2) =
         ⟨.error e, 2⟩) ∧
    (∀ (pref haiku e : String) (try2 : Except String Unit), isCollisionErr e = false →
       provisionBucketWithRetry pref (.error e) haiku try2 = ⟨.error e, 1⟩) ∧
    (∀ (pref haiku : String) (try1 try2 : Except String Unit),
       (provisionBucketWithRetry pref try1 haiku try2).attempts ≤ 2) := by
  refine ⟨?_, ?_, ?_, ?_⟩
  · intro pref haiku e h
    simp [provisionBucketWithRetry, h]
  · intro pref haiku e e2 h
    simp [provisionBucketWithRetry, h]
  · intro pref haiku e try2 h
    simp [provisionBucketWithRetry, h]
  · intro pref haiku try1 try2
    cases try1 with
    | ok u => exact Nat.le_succ 1
    | error e =>
      by_cases h : isCollisionErr e = true
      · cases try2 with
        | ok u => simp [provisionBucketWithRetry, h]
        | error e2 => simp [provisionBucketWithRetry, h]
      · simp [provisionBucketWithRetry, h]

/-- Witness for claim C6: a collision error with a failing retry keeps the
original error after two attempts; a non-collision error propagates after
one attempt. -/
theorem provisionBucket_collision_retry_witness :
    provisionBucketWithRetry "myapp-statics"
        (.error "name already exists for app myapp") "green-frog"
        (.error "still failing") =
      ⟨.error "name already exists for app myapp", 2⟩ ∧
    provisionBucketWithRetry "myapp-statics" (.error "internal server error")
        "green-frog" (.ok ()) = ⟨.error "internal server error", 1⟩ :=
  ⟨provisionBucket_collision_retry.2.1 "myapp-statics" "green-frog"
      "name already exists for app myapp" "still failing" (by decide),
   provisionBucket_collision_retry.2.2.1 "myapp-statics" "green-frog"
      "internal server error" (.ok ()) (by decide)⟩

/-! ## Existing-resource metadata scan in `staticsEnsureBucketCreated` -/

/-- A dynamic Go value, as produced by decoding the extension metadata
(`interface value` in the source). -/
inductive GoVal where
  | str (s : String)
  | num (n : Int)
  | boolean (b : Bool)
  | obj (fields : List (String × GoVal))

/-- Go map access `meta[key]`: the entry for the key, if present. -/
def lookupField : List (String × GoVal) → String → Option GoVal
  | [], _ => none
  | (k, v) :: rest, key => if k = key then some v else lookupField rest key

/-- The metadata key `staticsMetaKeyAppId` (machines_tigrisstatics.go:50). -/
def staticsMetaKeyAppId : String := "fly-statics-app-id"

/-- The metadata key `staticsMetaTokenizedAuth`
(machines_tigrisstatics.go:51). -/
def staticsMetaTokenizedAuth : String := "fly-statics-tokenized-auth"

/-- Go comparison of a dynamic map entry with a string
(`meta[staticsMetaKeyAppId] == md.app.ID`): true exactly when the entry
exists, is a string, and is equal; a missing entry (nil) or a value of any
other dynamic type compares unequal, without error. -/
def goEqString (v : Option GoVal) (t : String) : Bool :=
  match v with
  | some (.str s) => s == t
  | _ => false

/-- One listed managed resource: its name and its (possibly nil) decoded
metadata. -/
structure AddOnExt where
  name : String
  metadata : Option GoVal

/-- How the scan loop ends: reuse of a found record, fall-through to the
creation path, or a runtime panic. -/
inductive ScanResult where
  | found (bucket : String) (tokenizedAuth : String)
  | fallThrough
  | panicked
deriving DecidableEq

/-- Embeds the resource-scan loop of `staticsEnsureBucketCreated`
(machines_tigrisstatics.go:86-95): nil metadata is skipped; non-nil
metadata is type-asserted to a map — a non-map value makes the assertion
panic; if the map's app-id entry equals this app's id, the credential entry
is type-asserted to a string — a missing or non-string entry panics — and
is returned with the bucket name; otherwise the next resource is examined;
when no resource matches, the function falls through to the creation
path. -/
def scanExtensions (appId : String) : List AddOnExt → ScanResult
  | [] => .fallThrough
  | ext :: rest =>
    match ext.metadata with
    | none => scanExtensions appId rest
    | some (.obj fields) =>
      if goEqString (lookupField fields staticsMetaKeyAppId) appId then
        match lookupField fields staticsMetaTokenizedAuth with
        | some (.str auth) => .found ext.name auth
        | _ => .panicked
      else scanExtensions appId rest
    | some _ => .panicked

/-- Counterexample to claim C3 as stated: malformed metadata is not always
treated as "not ours" — metadata that is not a map panics in the type
assertion, and so does a record whose app-id matches but whose credential
entry is missing. -/
theorem scanExtensions_panics_on_malformed_metadata :
    scanExtensions "app-123" [⟨"bucket-a", some (.str "garbage")⟩] = .panicked ∧
    scanExtensions "app-123"
        [⟨"bucket-a", some (.obj [(staticsMetaKeyAppId, .str "app-123")])⟩] =
      .panicked := by
  constructor <;> rfl

/-- Claim C3 amended: an existing resource whose metadata is absent (nil),
or is a map whose app-id entry does not match this app, is treated as "not
ours": the scan falls through to the creation path with no error; but
metadata of a non-map shape, or a matching record whose credential entry is
missing or not a string, panics. -/
theorem scanExtensions_nil_or_unmatched_never_fatal :
    ∀ (appId : String) (exts : List AddOnExt),
      (∀ e ∈ exts, e.metadata = none ∨
         ∃ fields, e.metadata = some (.obj fields) ∧
           goEqString (lookupField fields staticsMetaKeyAppId) appId = false) →
      scanExtensions appId exts = .fallThrough := by
  intro appId exts
  induction exts with
  | nil => intro _; rfl
  | cons e rest ih =>
    intro h
    have hrest := fun x hx => h x (List.mem_cons_of_mem e hx)
    obtain ⟨nm, md⟩ := e
    rcases h _ (List.mem_cons_self _ rest) with hnone | ⟨fields, hobj, hne⟩
    · simp only at hnone
      subst hnone
      exact ih hrest
    · simp only at hobj
      subst hobj
      show (if goEqString (lookupField fields staticsMetaKeyAppId) appId then _
        else scanExtensions appId rest) = ScanResult.fallThrough
      rw [if_neg (by simp [hne])]
      exact ih hrest

/-- Witness for the amended claim C3: a nil-metadata record followed by a
record bound to a different app fall through to creation. -/
theorem scanExtensions_nil_or_unmatched_never_fatal_witness :
    scanExtensions "app-123"
        [⟨"b1", none⟩,
         ⟨"b2", some (.obj [(staticsMetaKeyAppId, .str "other-app")])⟩] =
      .fallThrough :=
  scanExtensions_nil_or_unmatched_never_fatal "app-123" _ (by
    intro e he
    rcases List.mem_cons.mp he with rfl | he2
    · exact Or.inl rfl
    · rcases List.mem_cons.mp he2 with rfl | he3
      · exact Or.inr ⟨[(staticsMetaKeyAppId, GoVal.str "other-app")], rfl, by decide⟩
      · cases he3)

/-! ## The scale coordinator `v2ScaleVM` (package scale, src/unnamed/part_000) -/

/-- A Go error reaching the update/retry block, distinguished by dynamic
type: a `mach.InvalidConfigErr` or any other error value. -/
inductive GoErr where
  | invalidConfig (msg : String)
  | other (msg : String)
deriving DecidableEq

/-- The fields of `fly.Machine` that determine the control flow of
`v2ScaleVM`. -/
structure ScaleMachine where
  name : String
  region : String
  processGroup : String
deriving DecidableEq

/-- The part of the remote app config used by `v2ScaleVM`: the process
names (only their count matters). -/
structure ScaleAppConfig where
  processNames : List String
deriving DecidableEq

/-- The outcomes of the external calls `v2ScaleVM` makes, passed as
parameters: the flaps client constructor, the early size-name validation
`(&fly.MachineGuest).SetSize(sizeName)`, the remote app-config fetch (used
only when no group is given, together with its default process name), the
active-machine listing, and `mach.AcquireLeases`. -/
structure ScaleEnv where
  newClientErr : Option String
  setSizeErr : Option String
  remoteConfig : Except String ScaleAppConfig
  defaultGroup : String
  activeMachines : Except String (List ScaleMachine)
  acquireErr : Option String

/-- How a `v2ScaleVM` call ends. The success return (part_000:97-103) is
unreachable — the loop body exits the process first — so its `VMSize`
value is not modelled. -/
inductive V2Outcome where
  | ok
  | err (e : String)
  | osExit (code : Nat)
deriving DecidableEq

/-- The observable trace of one `v2ScaleVM` call: how it ended, whether
`mach.AcquireLeases` was called, and whether the deferred `releaseFunc`
ran before control left the function. -/
structure V2Trace where
  outcome : V2Outcome
  leasesAcquired : Bool
  leaseReleaseRan : Bool
deriving DecidableEq

/-- Embeds `listMachinesWithGroup` (part_000:106): list the active
machines and keep those in the given process group. -/
def listMachinesWithGroup (env : ScaleEnv) (group : String) :
    Except String (List ScaleMachine) :=
  match env.activeMachines with
  | .error e => .error e
  | .ok ms => .ok (ms.filter (fun m => m.processGroup == group))

/-- Embeds `v2ScaleVM` from the machine listing on (part_000:43-94): an
empty machine list is an error before any lease exists; `mach.AcquireLeases`
then runs with `defer releaseFunc()` registered immediately, so a
lease-acquisition error returns with the release run; on success the
per-machine loop prints, mutates the launch input (mutations that cannot
affect any observable result) and calls `os.Exit(1)` unconditionally on its
first iteration — the process terminates, the deferred release does not
run, and the rest of the function (the update/retry block at part_000:79-92
and the success return) is unreachable. -/
def v2ScaleAfterGroup (env : ScaleEnv) (group : String) : V2Trace :=
  match listMachinesWithGroup env group with
  | .error e => ⟨.err e, false, false⟩
  | .ok [] => ⟨.err ("No active machines in process group " ++ group), false, false⟩
  | .ok (_ :: _) =>
    match env.acquireErr with
    | some e => ⟨.err e, true, true⟩
    | none => ⟨.osExit 1, true, false⟩

/-- Embeds the entry of `v2ScaleVM` (part_000:16-41): client construction,
early size-name validation (a validation error is returned only when a
size name was given), and process-group resolution — when no group is
given, the remote config is fetched, more than one process group is an
error, and the default process name is used otherwise. `appName` and
`memoryMB` do not influence the modelled trace. -/
def v2ScaleVM (env : ScaleEnv) (_appNm : String) (group sizeName : String)
    (_memMB : Int) : V2Trace :=
  match env.newClientErr with
  | some e => ⟨.err e, false, false⟩
  | none =>
    if env.setSizeErr.isSome ∧ sizeName ≠ "" then
      ⟨.err (match env.setSizeErr with | some e => e | none => ""), false, false⟩
    else if group = "" then
      match env.remoteConfig with
      | .error e => ⟨.err e, false, false⟩
      | .ok cfg =>
        if cfg.processNames.length > 1 then
          ⟨.err "scaling an app with multiple process groups requires a group",
            false, false⟩
        else v2ScaleAfterGroup env env.defaultGroup
    else v2ScaleAfterGroup env group

/-- A run of `v2ScaleVM` in which every external call succeeds and one
active machine is in the requested group. -/
def happyScaleEnv : ScaleEnv :=
  ⟨none, none, .ok ⟨["app"]⟩, "app", .ok [⟨"m1", "iad", "app"⟩], none⟩

/-- Claim C1 (code bug): on the path where leases are successfully
acquired over a non-empty machine list, `v2ScaleVM` reaches the
unconditional `os.Exit(1)` inside the per-machine loop: the process
terminates with the lease acquired and the deferred release never run, so
the lease is not released on this exit path. -/
theorem v2ScaleVM_exits_without_lease_release :
    v2ScaleVM happyScaleEnv "myapp" "app" "shared-cpu-2x" 512 =
      ⟨.osExit 1, true, false⟩ ∧
    v2ScaleVM ⟨none, none, .ok ⟨["app"]⟩, "app", .ok [⟨"m1", "iad", "app"⟩],
        some "lease acquisition failed"⟩ "myapp" "app" "shared-cpu-2x" 512 =
      ⟨.err "lease acquisition failed", true, true⟩ ∧
    v2ScaleVM ⟨none, none, .ok ⟨["app"]⟩, "app", .ok [], none⟩
        "myapp" "app" "shared-cpu-2x" 512 =
      ⟨.err "No active machines in process group app", false, false⟩ := by
  refine ⟨by decide, by decide, by decide⟩

/-- The result of one pass through the update/retry block in the
`v2ScaleVM` loop body: the iteration completes, the function returns an
error, or the process panics. -/
inductive UpdateBlockResult where
  | success
  | failure (e : GoErr)
  | panicked
deriving DecidableEq

/-- Embeds the update/retry block of the `v2ScaleVM` loop body
(part_000:79-92) — dead code behind the `os.Exit(1)`, modelled as written:
if the first `mach.Update` fails, the error is type-asserted to
`mach.InvalidConfigErr` (an error of any other dynamic type makes the
assertion panic) and `AttemptFix` runs; if the fix returns an error, the
block returns the original error; otherwise the update is retried once
and, when the retry fails, the block returns the second error — and when
the retry succeeds, it still falls through to `return nil, err`, returning
the original error. -/
def scaleUpdateBlock (firstUpdate : Option GoErr) (attemptFixErr : Option GoErr)
    (retryUpdate : Option GoErr) : UpdateBlockResult :=
  match firstUpdate with
  | none => .success
  | some e =>
    match e with
    | .invalidConfig _ =>
      match attemptFixErr with
      | some _ => .failure e
      | none =>
        match retryUpdate with
        | some e2 => .failure e2
        | none => .failure e
    | .other _ => .panicked

/-- Claim C2 (code bug): the block contradicts the claimed fix-and-retry
contract at three points — a recognized fixable invalid-configuration
error whose fix and retry both succeed still returns the original error
instead of completing successfully; an error that is not an
invalid-configuration value panics (is fatal) in the unchecked type
assertion instead of being returned; and when the retry fails, the second
error, not the original, is returned. -/
theorem scaleUpdateBlock_contradicts_retry_claim :
    scaleUpdateBlock (some (.invalidConfig "kernel version too old")) none none =
      .failure (.invalidConfig "kernel version too old") ∧
    scaleUpdateBlock (some (.other "network timeout")) none none = .panicked ∧
    scaleUpdateBlock (some (.invalidConfig "bad guest config")) none
        (some (.other "update failed again")) =
      .failure (.other "update failed again") := by
  refine ⟨rfl, rfl, rfl⟩

end Flyctl
